import Mathlib

/-!
Verification of the extraction-and-normalization pipeline in `src/main.py`
(`safe_join`, `expand_service_ranges`, `call_llm`, `process_excel`).

The embedding models Python values produced by `json.loads` as `PyValue`
(restricted to the JSON subset relevant here: strings without escape
sequences, integer numerals, booleans, null, arrays, objects; floats and
string escapes are not modelled, and no claim depends on them).  Python
exceptions raised during row processing are modelled with `Except PyErr`.
The external completion service (`ollama.chat`) is an oracle parameter
`String → Except Unit String`: `Except.error` stands for any exception
raised by the service call, `Except.ok s` for a response whose message
content is `s`.  Spreadsheet reading/writing is out of scope; input rows
are given as a list of `InputRow` and the output table is the accumulated
row list plus its derived column list (`dfColumns`, modelling how
`pandas.DataFrame` derives columns from a list of dicts: union of keys in
order of first appearance, and no columns at all for an empty list).
-/

set_option maxRecDepth 10000

/-- Python values arising from `json.loads` (floats and string escape
sequences are outside the modelled subset). -/
inductive PyValue where
  | str (s : String)
  | int (n : Int)
  | bool (b : Bool)
  | null
  | list (xs : List PyValue)
  | dict (fields : List (String × PyValue))

/-- Python exceptions that row processing can raise. -/
inductive PyErr where
  | attributeError
  | typeError
deriving DecidableEq

/-- A cell of the output table: the source writes strings and the integer
constants 1 and 100. -/
inductive Cell where
  | s (v : String)
  | n (v : Nat)
deriving DecidableEq

/-- One input spreadsheet row, already reduced to the two columns the code
reads (`row.get("SERVICE_CATEGORY_NAME", "")` and `row.get("DEFINITION", "")`;
a missing column is the empty string). -/
structure InputRow where
  service_category : String
  definition : String

/-- An output row as appended by `process_excel`: an ordered dict. -/
abbrev OutputRow := List (String × Cell)

/-- Characters matched by the regex class `\d` (ASCII digits; Python's
`\d` also matches other Unicode digits, which do not occur here). -/
def isDigitChar (c : Char) : Bool := c.isDigit

/-- Characters matched by the regex class `\s` and stripped by `str.strip()`
(ASCII whitespace). -/
def isSpaceChar (c : Char) : Bool :=
  c = ' ' || c = '\t' || c = '\n' || c = '\r' || c = '\x0b' || c = '\x0c'

/-- Decimal value of a digit string, as computed by Python `int()`. -/
def digitsToNat (ds : List Char) : Nat :=
  ds.foldl (fun acc c => acc * 10 + (c.toNat - '0'.toNat)) 0

/-- Semantics of `re.match(r"(\d+)\s*-\s*(\d+)", code_str)`: anchored at the
start of the string, trailing characters allowed; greedy matching of this
pattern coincides with maximal munch.  Returns the two captured integers. -/
def parseRangeChars (cs : List Char) : Option (Nat × Nat) :=
  let d1 := cs.takeWhile isDigitChar
  if d1.isEmpty then none else
  match (cs.dropWhile isDigitChar).dropWhile isSpaceChar with
  | '-' :: r2 =>
    let d2 := (r2.dropWhile isSpaceChar).takeWhile isDigitChar
    if d2.isEmpty then none else some (digitsToNat d1, digitsToNat d2)
  | _ => none

/-- Per-token body of the loop in `expand_service_ranges`: a matched token
contributes `str(num)` for `num in range(start, end + 1)`, an unmatched
token passes through unchanged. -/
def expandToken (t : String) : List String :=
  match parseRangeChars t.toList with
  | some (a, b) => (List.range' a (b + 1 - a)).map Nat.repr
  | none => [t]

mutual

/-- Python `str()` on a parsed-JSON value (string escaping inside `repr`
of nested containers is not modelled; no claim exercises it). -/
def pyStr : PyValue → String
  | .str s => s
  | .int n => toString n
  | .bool b => if b then "True" else "False"
  | .null => "None"
  | .list xs => "[" ++ String.intercalate ", " (pyReprList xs) ++ "]"
  | .dict fs => "\x7b" ++ String.intercalate ", " (pyReprFields fs) ++ "\x7d"

/-- Python `repr()` used for elements of containers. -/
def pyRepr : PyValue → String
  | .str s => "'" ++ s ++ "'"
  | .int n => toString n
  | .bool b => if b then "True" else "False"
  | .null => "None"
  | .list xs => "[" ++ String.intercalate ", " (pyReprList xs) ++ "]"
  | .dict fs => "\x7b" ++ String.intercalate ", " (pyReprFields fs) ++ "\x7d"

def pyReprList : List PyValue → List String
  | [] => []
  | x :: xs => pyRepr x :: pyReprList xs

def pyReprFields : List (String × PyValue) → List String
  | [] => []
  | (k, v) :: fs => ("'" ++ k ++ "': " ++ pyRepr v) :: pyReprFields fs

end

/-- Python truthiness of a value (`if not values`, `if not llm_data`). -/
def pyTruthy : PyValue → Bool
  | .str s => !s.isEmpty
  | .int n => n != 0
  | .bool b => b
  | .null => false
  | .list xs => !xs.isEmpty
  | .dict fs => !fs.isEmpty

/-- Python iteration (`for x in v`, `",".join(...)`): lists yield elements,
strings yield their characters, dicts yield their keys; other values raise
`TypeError`. -/
def pyIter : PyValue → Except PyErr (List PyValue)
  | .list xs => .ok xs
  | .str s => .ok (s.toList.map (fun c => .str (String.mk [c])))
  | .dict fs => .ok (fs.map (fun kv => .str kv.1))
  | _ => .error .typeError

/-- Python `dict.get(key, default)` (keys are unique after parsing). -/
def dictGet (fs : List (String × PyValue)) (key : String) (dflt : PyValue) : PyValue :=
  match fs.find? (fun kv => kv.1 == key) with
  | some kv => kv.2
  | none => dflt

/-- Insertion into a parsed object: a duplicate key keeps its original
position and takes the later value, as in Python dicts. -/
def upsert : List (String × PyValue) → String → PyValue → List (String × PyValue)
  | [], k, v => [(k, v)]
  | (k', v') :: rest, k, v =>
    if k' == k then (k', v) :: rest else (k', v') :: upsert rest k v

/-- Embedding of `safe_join` from `src/main.py`: falsy input gives `""`,
otherwise the iterated elements are joined with commas after `str()`. -/
def safe_join (values : PyValue) : Except PyErr String :=
  if pyTruthy values then
    match pyIter values with
    | .ok items => .ok (String.intercalate "," (items.map pyStr))
    | .error e => .error e
  else .ok ""

/-- Embedding of `expand_service_ranges` from `src/main.py`: iterate the
input, stringify each element, and expand tokens matched by the range
regex into the enumerated codes. -/
def expand_service_ranges (service_codes : PyValue) : Except PyErr (List String) :=
  match pyIter service_codes with
  | .ok items => .ok (items.flatMap (fun code => expandToken (pyStr code)))
  | .error e => .error e

/-- One non-overlapping left-to-right replacement pass, as in Python
`str.replace`; the fuel is bounded by the input length since every step
consumes at least one character (the patterns used are nonempty). -/
def replaceAllAux (pat rep : List Char) : Nat → List Char → List Char
  | _, [] => []
  | 0, cs => cs
  | fuel + 1, c :: cs =>
    if pat.isPrefixOf (c :: cs) && !pat.isEmpty then
      rep ++ replaceAllAux pat rep fuel (List.drop (pat.length - 1) cs)
    else
      c :: replaceAllAux pat rep fuel cs

/-- Python `s.replace(pat, rep)` for nonempty `pat`. -/
def replaceAll (cs pat rep : List Char) : List Char :=
  replaceAllAux pat rep cs.length cs

/-- Python `str.strip()`: ASCII whitespace removed from both ends. -/
def pyStripChars (cs : List Char) : List Char :=
  ((cs.dropWhile isSpaceChar).reverse.dropWhile isSpaceChar).reverse

/-- The fence-stripping step of `call_llm`:
`content.replace("```json", "").replace("```", "").strip()`. -/
def stripFences (s : String) : String :=
  String.mk (pyStripChars (replaceAll (replaceAll s.toList "```json".toList []) "```".toList []))

/-- Whitespace skipped by Python's JSON decoder. -/
def isJsonWs (c : Char) : Bool := c = ' ' || c = '\t' || c = '\n' || c = '\r'

def skipWs (cs : List Char) : List Char := cs.dropWhile isJsonWs

/-- JSON string literal body after the opening quote: characters up to the
closing quote (escape sequences are outside the modelled subset). -/
def parseStrAux : List Char → Option (List Char × List Char)
  | [] => none
  | c :: rest =>
    if c = '"' then some ([], rest)
    else if c = '\\' then none
    else match parseStrAux rest with
      | some (s, r) => some (c :: s, r)
      | none => none

/-- An integer JSON numeral: optional minus then digits (fractions,
exponents and the no-leading-zero rule are outside the modelled subset). -/
def parseIntLit (cs : List Char) : Option (Int × List Char) :=
  match cs with
  | '-' :: rest =>
    let ds := rest.takeWhile isDigitChar
    if ds.isEmpty then none
    else some (-(digitsToNat ds : Int), rest.dropWhile isDigitChar)
  | _ =>
    let ds := cs.takeWhile isDigitChar
    if ds.isEmpty then none
    else some ((digitsToNat ds : Int), cs.dropWhile isDigitChar)

mutual

/-- Recursive-descent JSON value parser (models `json.loads` on the
modelled subset); the fuel strictly decreases on every nested call. -/
def parseVal : Nat → List Char → Option (PyValue × List Char)
  | 0, _ => none
  | fuel + 1, cs0 =>
    match skipWs cs0 with
    | 'n' :: 'u' :: 'l' :: 'l' :: rest => some (.null, rest)
    | 't' :: 'r' :: 'u' :: 'e' :: rest => some (.bool true, rest)
    | 'f' :: 'a' :: 'l' :: 's' :: 'e' :: rest => some (.bool false, rest)
    | '"' :: rest =>
      match parseStrAux rest with
      | some (s, r) => some (.str (String.mk s), r)
      | none => none
    | '[' :: rest =>
      (match skipWs rest with
       | ']' :: r2 => some (.list [], r2)
       | _ => match parseElems fuel rest with
         | some (xs, r2) => some (.list xs, r2)
         | none => none)
    | '\x7b' :: rest =>
      (match skipWs rest with
       | '\x7d' :: r2 => some (.dict [], r2)
       | _ => match parseMembers fuel rest [] with
         | some (fs, r2) => some (.dict fs, r2)
         | none => none)
    | cs => match parseIntLit cs with
      | some (n, r) => some (.int n, r)
      | none => none

/-- Comma-separated array elements up to the closing bracket. -/
def parseElems : Nat → List Char → Option (List PyValue × List Char)
  | 0, _ => none
  | fuel + 1, cs =>
    match parseVal fuel cs with
    | some (v, r) =>
      (match skipWs r with
       | ',' :: r2 =>
         (match parseElems fuel r2 with
          | some (xs, r3) => some (v :: xs, r3)
          | none => none)
       | ']' :: r2 => some ([v], r2)
       | _ => none)
    | none => none

/-- Comma-separated object members up to the closing brace; later duplicate
keys override earlier ones as in Python dicts. -/
def parseMembers : Nat → List Char → List (String × PyValue) → Option (List (String × PyValue) × List Char)
  | 0, _, _ => none
  | fuel + 1, cs, acc =>
    match skipWs cs with
    | '"' :: rest =>
      (match parseStrAux rest with
       | some (k, r) =>
         (match skipWs r with
          | ':' :: r2 =>
            (match parseVal fuel r2 with
             | some (v, r3) =>
               (match skipWs r3 with
                | ',' :: r4 => parseMembers fuel r4 (upsert acc (String.mk k) v)
                | '\x7d' :: r4 => some (upsert acc (String.mk k) v, r4)
                | _ => none)
             | none => none)
          | _ => none)
       | none => none)
    | _ => none

end

/-- Model of `json.loads`: a single JSON value with only whitespace around
it, `none` on any parse failure (Python raises `JSONDecodeError`). -/
def jsonParse (s : String) : Option PyValue :=
  match parseVal (2 * s.length + 4) s.toList with
  | some (v, rest) => if (skipWs rest).isEmpty then some v else none
  | none => none

/-- Embedding of `call_llm` from `src/main.py`.  The completion service is
the oracle `svc`; `Except.error` stands for any exception raised inside the
`try` block (service invocation failure, missing response fields), and the
`json.loads` failure path is `jsonParse = none`.  Every failure path
returns the empty dict; a successful parse is returned unchanged. -/
def call_llm (svc : String → Except Unit String) (definition : String) : PyValue :=
  match svc definition with
  | .error _ => .dict []
  | .ok content =>
    match jsonParse (stripFences content) with
    | some v => v
    | none => .dict []

/-- The dict literal appended by `process_excel` for one service code, with
the keys in source order. -/
def mkOutputRow (service_category code revenue gender age diagnosis pos bill modifier : String) : OutputRow :=
  [("ServiceCategory", .s service_category),
   ("ServiceCode", .s code),
   ("RevenueCode", .s revenue),
   ("Gender", .s gender),
   ("Age", .s age),
   ("DiagnosisCode", .s diagnosis),
   ("POS", .s pos),
   ("TypeOfBill", .s bill),
   ("Modifier", .s modifier),
   ("Minutes", .n 1),
   ("Billed_Amnt", .n 100)]

/-- The output columns declared by the specification. -/
def outputColumns : List String :=
  ["ServiceCategory", "ServiceCode", "RevenueCode", "Gender", "Age",
   "DiagnosisCode", "POS", "TypeOfBill", "Modifier", "Minutes", "Billed_Amnt"]

/-- Body of the per-row loop of `process_excel`: call the model, skip on a
falsy result, read the fields with defaults, expand service ranges, derive
the age range and the joined strings, and emit one row per code.  A truthy
non-dict result raises `AttributeError` at the first `.get`; the fallible
steps are sequenced in source order so the first error wins. -/
def processRow (svc : String → Except Unit String) (r : InputRow) : Except PyErr (List OutputRow) :=
  let llm_data := call_llm svc r.definition
  if pyTruthy llm_data then
    match llm_data with
    | .dict fields =>
      (match expand_service_ranges (dictGet fields "serviceCodes" (.list [])) with
       | .error e => .error e
       | .ok codes =>
         let min_age := dictGet fields "minAge" (.str "")
         let max_age := dictGet fields "maxAge" (.str "")
         let age_range :=
           if pyTruthy min_age || pyTruthy max_age then
             pyStr min_age ++ "-" ++ pyStr max_age
           else ""
         match safe_join (dictGet fields "diagnosisCodes" (.list [])) with
         | .error e => .error e
         | .ok diagnosis_string =>
           match safe_join (dictGet fields "revenueCodes" (.list [])) with
           | .error e => .error e
           | .ok revenue_string =>
             match safe_join (dictGet fields "pos" (.list [])) with
             | .error e => .error e
             | .ok pos_string =>
               .ok (codes.map (fun code =>
                 mkOutputRow r.service_category code revenue_string
                   (pyStr (dictGet fields "gender" (.str ""))) age_range
                   diagnosis_string pos_string
                   (pyStr (dictGet fields "typeOfBill" (.str "")))
                   (pyStr (dictGet fields "modifier" (.str ""))))))
    | _ => .error .attributeError
  else .ok []

/-- The row loop of `process_excel`: rows processed in order, outputs
accumulated by appending; an uncaught per-row exception aborts the run. -/
def processRows (svc : String → Except Unit String) : List InputRow → Except PyErr (List OutputRow)
  | [] => .ok []
  | r :: rest =>
    match processRow svc r with
    | .error e => .error e
    | .ok o =>
      match processRows svc rest with
      | .error e => .error e
      | .ok os => .ok (o ++ os)

/-- Columns of `pandas.DataFrame(rows)` for a list of dicts: union of the
keys in order of first appearance; an empty list yields no columns. -/
def dfColumns (rows : List OutputRow) : List String :=
  rows.foldl (fun acc r => acc ++ (r.map Prod.fst).filter (fun k => !acc.contains k)) []

/-- The post-expansion service-code count of an extracted record: the
length of `expand_service_ranges` applied to its `serviceCodes` field. -/
def postExpansionCount (v : PyValue) : Nat :=
  match v with
  | .dict fs =>
    (match expand_service_ranges (dictGet fs "serviceCodes" (.list [])) with
     | .ok codes => codes.length
     | .error _ => 0)
  | _ => 0

/-- Whether the range pattern occurs anywhere in the string (at any start
position), the reading of the pattern contract under test in C3. -/
def hasRangeOccurrence (s : String) : Bool :=
  (List.range (s.toList.length + 1)).any (fun i => (parseRangeChars (s.toList.drop i)).isSome)

/-- The designated empty-record sentinel: the empty mapping. -/
def isSentinel : PyValue → Bool
  | .dict [] => true
  | _ => false

lemma isSpaceChar_cases {c : Char} (h : isSpaceChar c = true) :
    c = ' ' ∨ c = '\t' ∨ c = '\n' ∨ c = '\r' ∨ c = '\x0b' ∨ c = '\x0c' := by
  simp only [isSpaceChar, Bool.or_eq_true, decide_eq_true_eq] at h
  tauto

lemma space_not_digit {c : Char} (h : isSpaceChar c = true) : isDigitChar c = false := by
  rcases isSpaceChar_cases h with rfl | rfl | rfl | rfl | rfl | rfl <;> rfl

lemma digit_not_space {c : Char} (h : isDigitChar c = true) : isSpaceChar c = false := by
  by_contra hs
  have hs' : isSpaceChar c = true := by
    cases hq : isSpaceChar c
    · exact absurd hq hs
    · rfl
  rw [space_not_digit hs'] at h
  exact Bool.false_ne_true h

lemma parseRangeChars_some_decomp {cs : List Char} (h : (parseRangeChars cs).isSome = true) :
    ∃ d1 w1 w2 d2 rest, cs = d1 ++ (w1 ++ '-' :: (w2 ++ (d2 ++ rest)))
      ∧ d1 ≠ [] ∧ d1.all isDigitChar = true ∧ w1.all isSpaceChar = true
      ∧ w2.all isSpaceChar = true ∧ d2 ≠ [] ∧ d2.all isDigitChar = true := by
  simp only [parseRangeChars] at h
  split at h
  · simp at h
  · rename_i h1
    split at h
    · rename_i r2 heq
      split at h
      · simp at h
      · rename_i h2
        refine ⟨cs.takeWhile isDigitChar,
          (cs.dropWhile isDigitChar).takeWhile isSpaceChar,
          r2.takeWhile isSpaceChar,
          (r2.dropWhile isSpaceChar).takeWhile isDigitChar,
          (r2.dropWhile isSpaceChar).dropWhile isDigitChar,
          ?_, ?_, List.all_takeWhile, List.all_takeWhile, List.all_takeWhile, ?_, List.all_takeWhile⟩
        · conv_lhs => rw [← List.takeWhile_append_dropWhile isDigitChar cs]
          congr 1
          conv_lhs => rw [← List.takeWhile_append_dropWhile isSpaceChar (cs.dropWhile isDigitChar)]
          rw [heq]
          congr 1
          conv_lhs => rw [← List.takeWhile_append_dropWhile isSpaceChar r2]
          congr 1
          congr 1
          exact (List.takeWhile_append_dropWhile isDigitChar (r2.dropWhile isSpaceChar)).symm
        · intro hnil
          rw [hnil] at h1
          exact h1 rfl
        · intro hnil
          rw [hnil] at h2
          exact h2 rfl
    · simp at h

lemma dropWhile_digit_space_dash (w : List Char) (hw : w.all isSpaceChar = true) (Y : List Char) :
    List.dropWhile isDigitChar (w ++ '-' :: Y) = w ++ '-' :: Y := by
  cases w with
  | nil =>
    simp only [List.nil_append]
    exact List.dropWhile_cons_of_neg (by decide)
  | cons c w' =>
    have hc : isSpaceChar c = true := by
      simp only [List.all_cons, Bool.and_eq_true] at hw
      exact hw.1
    simp only [List.cons_append]
    exact List.dropWhile_cons_of_neg (by simp [space_not_digit hc])

lemma parseRangeChars_append_isSome (d1 w1 w2 d2 rest : List Char)
    (hd1 : d1 ≠ []) (hd1a : d1.all isDigitChar = true)
    (hw1 : w1.all isSpaceChar = true) (hw2 : w2.all isSpaceChar = true)
    (hd2 : d2 ≠ []) (hd2a : d2.all isDigitChar = true) :
    (parseRangeChars (d1 ++ (w1 ++ '-' :: (w2 ++ (d2 ++ rest))))).isSome = true := by
  obtain ⟨c1, d1t, rfl⟩ := List.exists_cons_of_ne_nil hd1
  obtain ⟨c2, d2t, rfl⟩ := List.exists_cons_of_ne_nil hd2
  have hc1 : isDigitChar c1 = true := by
    simp only [List.all_cons, Bool.and_eq_true] at hd1a
    exact hd1a.1
  have hc2 : isDigitChar c2 = true := by
    simp only [List.all_cons, Bool.and_eq_true] at hd2a
    exact hd2a.1
  have hdrop1 : List.dropWhile isDigitChar ((c1 :: d1t) ++ (w1 ++ '-' :: (w2 ++ ((c2 :: d2t) ++ rest))))
      = w1 ++ '-' :: (w2 ++ ((c2 :: d2t) ++ rest)) := by
    rw [List.dropWhile_append_of_pos (List.all_eq_true.mp hd1a)]
    exact dropWhile_digit_space_dash w1 hw1 _
  have htake1 : (List.takeWhile isDigitChar ((c1 :: d1t) ++ (w1 ++ '-' :: (w2 ++ ((c2 :: d2t) ++ rest))))).isEmpty = false := by
    rw [List.cons_append, List.takeWhile_cons_of_pos hc1]
    rfl
  have hdropsp : List.dropWhile isSpaceChar (w1 ++ '-' :: (w2 ++ ((c2 :: d2t) ++ rest)))
      = '-' :: (w2 ++ ((c2 :: d2t) ++ rest)) := by
    rw [List.dropWhile_append_of_pos (List.all_eq_true.mp hw1)]
    exact List.dropWhile_cons_of_neg (by decide)
  have hdropsp2 : List.dropWhile isSpaceChar (w2 ++ ((c2 :: d2t) ++ rest))
      = (c2 :: d2t) ++ rest := by
    rw [List.dropWhile_append_of_pos (List.all_eq_true.mp hw2)]
    rw [List.cons_append]
    exact List.dropWhile_cons_of_neg (by simp [digit_not_space hc2])
  simp only [parseRangeChars, htake1, hdrop1, hdropsp, hdropsp2, Bool.false_eq_true, if_false]
  rw [List.cons_append, List.takeWhile_cons_of_pos hc2]
  rfl

lemma digitChar_isDigit {m : Nat} (h : m < 10) : (Nat.digitChar m).isDigit = true := by
  interval_cases m <;> rfl

lemma toDigitsCore_digits (fuel : Nat) :
    ∀ (n : Nat) (acc : List Char), (∀ c ∈ acc, c.isDigit = true) →
      ∀ c ∈ Nat.toDigitsCore 10 fuel n acc, c.isDigit = true := by
  induction fuel with
  | zero => intro n acc hacc c hc; exact hacc c hc
  | succ fuel ih =>
    intro n acc hacc c hc
    have hd : (Nat.digitChar (n % 10)).isDigit = true :=
      digitChar_isDigit (Nat.mod_lt n (by omega))
    have hacc' : ∀ c ∈ Nat.digitChar (n % 10) :: acc, c.isDigit = true := by
      intro c hc
      rcases List.mem_cons.mp hc with rfl | hmem
      · exact hd
      · exact hacc c hmem
    simp only [Nat.toDigitsCore] at hc
    split at hc
    · exact hacc' c hc
    · exact ih (n / 10) (Nat.digitChar (n % 10) :: acc) hacc' c hc

lemma repr_all_digits (n : Nat) : (Nat.repr n).toList.all isDigitChar = true := by
  rw [List.all_eq_true]
  intro c hc
  have : c ∈ Nat.toDigitsCore 10 (n + 1) n [] := hc
  exact toDigitsCore_digits (n + 1) n [] (by intro c hc; cases hc) c this

lemma parseRangeChars_all_digits {cs : List Char} (h : cs.all isDigitChar = true) :
    parseRangeChars cs = none := by
  have htake : cs.takeWhile isDigitChar = cs := List.takeWhile_eq_self_iff.mpr (List.all_eq_true.mp h)
  have hdrop : cs.dropWhile isDigitChar = [] := List.dropWhile_eq_nil_iff.mpr (List.all_eq_true.mp h)
  cases cs with
  | nil => rfl
  | cons c cst =>
    simp only [parseRangeChars, htake, hdrop, List.dropWhile_nil, List.isEmpty_cons,
      Bool.false_eq_true, if_false]

lemma parseRangeChars_repr (n : Nat) : parseRangeChars (Nat.repr n).toList = none :=
  parseRangeChars_all_digits (repr_all_digits n)

lemma expandToken_descendant {t s : String} (h : s ∈ expandToken t) : expandToken s = [s] := by
  unfold expandToken at h
  split at h
  · rename_i a b heq
    rcases List.mem_map.mp h with ⟨m, _, rfl⟩
    unfold expandToken
    rw [parseRangeChars_repr m]
  · rcases List.mem_singleton.mp h with rfl
    unfold expandToken
    rename_i heq
    rw [heq]

lemma mkOutputRow_keys (a b c d e f g h i : String) :
    (mkOutputRow a b c d e f g h i).map Prod.fst = outputColumns := rfl

lemma processRow_sentinel {svc : String → Except Unit String} {r : InputRow}
    (h : pyTruthy (call_llm svc r.definition) = false) : processRow svc r = .ok [] := by
  simp only [processRow, h, Bool.false_eq_true, if_false]

lemma processRow_keys {svc : String → Except Unit String} {r : InputRow} {o : List OutputRow}
    (h : processRow svc r = .ok o) : ∀ x ∈ o, x.map Prod.fst = outputColumns := by
  simp only [processRow] at h
  split at h
  · split at h
    all_goals try exact Except.noConfusion h
    split at h
    all_goals try exact Except.noConfusion h
    split at h
    all_goals try exact Except.noConfusion h
    split at h
    all_goals try exact Except.noConfusion h
    split at h
    all_goals try exact Except.noConfusion h
    injection h with h'
    subst h'
    intro x hx
    rcases List.mem_map.mp hx with ⟨code, _, rfl⟩
    rfl
  · injection h with h'
    subst h'
    intro x hx
    cases hx

lemma processRow_length {svc : String → Except Unit String} {r : InputRow} {fs : List (String × PyValue)}
    {o : List OutputRow} (hc : call_llm svc r.definition = .dict fs)
    (h : processRow svc r = .ok o) :
    o.length = if fs.isEmpty then 0 else postExpansionCount (PyValue.dict fs) := by
  simp only [processRow, hc] at h
  cases fs with
  | nil =>
    simp only [pyTruthy, List.isEmpty_nil, Bool.not_true, Bool.false_eq_true, if_false] at h
    injection h with h'
    subst h'
    rfl
  | cons f ft =>
    simp only [pyTruthy, List.isEmpty_cons, Bool.not_false, if_true] at h
    split at h
    all_goals try exact Except.noConfusion h
    rename_i codes hexp
    split at h
    all_goals try exact Except.noConfusion h
    split at h
    all_goals try exact Except.noConfusion h
    split at h
    all_goals try exact Except.noConfusion h
    injection h with h'
    subst h'
    simp only [List.isEmpty_cons, Bool.false_eq_true, if_false, postExpansionCount, hexp,
      List.length_map]

lemma dfColumns_aux (rs : List OutputRow) (h : ∀ r ∈ rs, r.map Prod.fst = outputColumns) :
    rs.foldl (fun acc r => acc ++ (r.map Prod.fst).filter (fun k => !acc.contains k)) outputColumns
      = outputColumns := by
  induction rs with
  | nil => rfl
  | cons r rst ih =>
    have hr : r.map Prod.fst = outputColumns := h r (by simp)
    simp only [List.foldl_cons, hr]
    have hfix : outputColumns ++ outputColumns.filter (fun k => !outputColumns.contains k)
        = outputColumns := by decide
    rw [hfix]
    exact ih (fun x hx => h x (by simp [hx]))

lemma dfColumns_const {rs : List OutputRow} (h : ∀ r ∈ rs, r.map Prod.fst = outputColumns) :
    dfColumns rs = if rs.isEmpty then [] else outputColumns := by
  cases rs with
  | nil => rfl
  | cons r rst =>
    have hr : r.map Prod.fst = outputColumns := h r (by simp)
    simp only [dfColumns, List.foldl_cons, hr, List.isEmpty_cons, Bool.false_eq_true, if_false]
    have h0 : ([] : List String) ++ outputColumns.filter (fun k => !([] : List String).contains k)
        = outputColumns := by decide
    rw [h0]
    exact dfColumns_aux rst (fun x hx => h x (by simp [hx]))

lemma processRows_keys {svc : String → Except Unit String} {rows : List InputRow}
    {out : List OutputRow} (h : processRows svc rows = .ok out) :
    ∀ x ∈ out, x.map Prod.fst = outputColumns := by
  induction rows generalizing out with
  | nil =>
    injection h with h'
    subst h'
    intro x hx
    cases hx
  | cons r rest ih =>
    unfold processRows at h
    split at h
    · exact Except.noConfusion h
    · rename_i o ho
      split at h
      · exact Except.noConfusion h
      · rename_i os hos
        injection h with h'
        subst h'
        intro x hx
        rcases List.mem_append.mp hx with hx | hx
        · exact processRow_keys ho x hx
        · exact ih hos x hx

lemma singleton_flatMap_id {L : List String} (h : ∀ s ∈ L, expandToken s = [s]) :
    L.flatMap expandToken = L := by
  induction L with
  | nil => rfl
  | cons x xs ih =>
    rw [List.flatMap_cons, h x (by simp), ih (fun s hs => h s (by simp [hs]))]
    rfl

lemma isSentinel_dict (fs : List (String × PyValue)) :
    isSentinel (PyValue.dict fs) = fs.isEmpty := by
  cases fs <;> rfl

/-- C9: `safe_join` returns the empty string on an absent value (`None`)
and on the empty sequence, and otherwise joins the elements' string forms
with single commas, no surrounding whitespace, preserving input order; in
particular `safe_join(["A", "B", 3])` is `"A,B,3"`. -/
theorem c9_safe_join :
    safe_join PyValue.null = .ok ""
    ∧ safe_join (PyValue.list []) = .ok ""
    ∧ (∀ xs : List PyValue,
        safe_join (PyValue.list xs) = .ok (String.intercalate "," (xs.map pyStr)))
    ∧ safe_join (PyValue.list [PyValue.str "A", PyValue.str "B", PyValue.int 3]) = .ok "A,B,3" := by
  refine ⟨rfl, rfl, ?_, rfl⟩
  intro xs
  cases xs with
  | nil => rfl
  | cons x xst => rfl

/-- C4: `expand_service_ranges` is the in-order flat map of the per-token
expansion, so input token order is preserved and each token is replaced in
place; a token that does not match the range pattern is emitted unchanged
(as a string by `expandToken` after `str()` coercion), and a matched token
with captured integers `a ≤ b` is replaced by the ascending decimal strings
of `a, a+1, …, b`. -/
theorem c4_order_and_expansion (tokens : List PyValue) :
    expand_service_ranges (PyValue.list tokens)
      = .ok (tokens.flatMap (fun c => expandToken (pyStr c)))
    ∧ (∀ t : String, parseRangeChars t.toList = none → expandToken t = [t])
    ∧ (∀ (t : String) (a b : Nat), parseRangeChars t.toList = some (a, b) → a ≤ b →
        expandToken t = (List.range' a (b + 1 - a)).map Nat.repr) := by
  refine ⟨rfl, ?_, ?_⟩
  · intro t h
    unfold expandToken
    rw [h]
  · intro t a b h _
    unfold expandToken
    rw [h]

/-- C4 witness: a concrete mixed token list, expanded in order. -/
theorem c4_order_and_expansion_witness :
    expand_service_ranges (PyValue.list [PyValue.str "5-7", PyValue.str "abc"])
      = .ok ["5", "6", "7", "abc"]
    ∧ expandToken "abc" = ["abc"]
    ∧ expandToken "5-7" = (List.range' 5 3).map Nat.repr := by
  have h := c4_order_and_expansion [PyValue.str "5-7", PyValue.str "abc"]
  exact ⟨h.1.trans (by rfl), h.2.1 "abc" (by rfl), h.2.2 "5-7" 5 7 (by rfl) (by decide)⟩

/-- C10: a matched token is re-serialized through decimal integer
conversion of the two captured integers, so its output depends only on the
captured values: leading zeros are not preserved and characters after the
matched leading range are discarded. -/
theorem c10_decimal_reserialization (t : String) (a b : Nat)
    (h : parseRangeChars t.toList = some (a, b)) :
    expand_service_ranges (PyValue.list [PyValue.str t])
      = .ok ((List.range' a (b + 1 - a)).map Nat.repr) := by
  show Except.ok ([PyValue.str t].flatMap (fun code => expandToken (pyStr code))) = _
  rw [List.flatMap_cons, List.flatMap_nil, List.append_nil]
  show Except.ok (expandToken t) = _
  unfold expandToken
  rw [h]

/-- C10 witness: leading zeros dropped, trailing characters discarded. -/
theorem c10_decimal_reserialization_witness :
    expand_service_ranges (PyValue.list [PyValue.str "007-009"]) = .ok ["7", "8", "9"]
    ∧ expand_service_ranges (PyValue.list [PyValue.str "2-4XYZ"]) = .ok ["2", "3", "4"] :=
  ⟨(c10_decimal_reserialization "007-009" 7 9 (by rfl)).trans (by rfl),
   (c10_decimal_reserialization "2-4XYZ" 2 4 (by rfl)).trans (by rfl)⟩

/-- C3 counterexample: the token "x1-3" contains an occurrence of the
range pattern (at position 1), yet `expand_service_ranges` passes it
through unchanged instead of expanding it to ["1", "2", "3"]: the regex is
applied with `re.match`, which anchors at the start of the token. -/
theorem c3_counterexample :
    hasRangeOccurrence "x1-3" = true
    ∧ expand_service_ranges (PyValue.list [PyValue.str "x1-3"]) = .ok ["x1-3"]
    ∧ (["x1-3"] : List String) ≠ ["1", "2", "3"] :=
  ⟨by decide, by rfl, by decide⟩

/-- C3 amended: a token is matched exactly when the pattern occurs at the
START of the token — it begins with one or more digits, optional
whitespace, a dash, optional whitespace, and one or more digits, with
arbitrary trailing characters allowed (no full-string match required) —
and an unmatched token passes through unchanged. -/
theorem c3_leading_match (t : String) :
    ((parseRangeChars t.toList).isSome = true ↔
      ∃ d1 w1 w2 d2 rest, t.toList = d1 ++ (w1 ++ '-' :: (w2 ++ (d2 ++ rest)))
        ∧ d1 ≠ [] ∧ d1.all isDigitChar = true ∧ w1.all isSpaceChar = true
        ∧ w2.all isSpaceChar = true ∧ d2 ≠ [] ∧ d2.all isDigitChar = true)
    ∧ (parseRangeChars t.toList = none → expandToken t = [t]) := by
  constructor
  · constructor
    · exact fun h => parseRangeChars_some_decomp h
    · rintro ⟨d1, w1, w2, d2, rest, heq, hd1, hd1a, hw1, hw2, hd2, hd2a⟩
      rw [heq]
      exact parseRangeChars_append_isSome d1 w1 w2 d2 rest hd1 hd1a hw1 hw2 hd2 hd2a
  · intro h
    unfold expandToken
    rw [h]

/-- C3 witness: an interior-only occurrence passes through unchanged, and
a token with a leading occurrence (plus trailing text) is matched. -/
theorem c3_leading_match_witness :
    expandToken "a5-6" = ["a5-6"]
    ∧ (parseRangeChars "12-34x".toList).isSome = true :=
  ⟨(c3_leading_match "a5-6").2 (by rfl),
   (c3_leading_match "12-34x").1.mpr
     ⟨['1', '2'], [], [], ['3', '4'], ['x'], by decide, by decide, by decide, by decide,
      by decide, by decide, by decide⟩⟩

/-- C1 counterexample: a response whose text is valid JSON but not an
object (here the array "[2, 3]") is returned as-is by `call_llm`, not
replaced by the empty-record sentinel. -/
theorem c1_counterexample :
    call_llm (fun _ => Except.ok "[2, 3]") "def" = PyValue.list [PyValue.int 2, PyValue.int 3]
    ∧ call_llm (fun _ => Except.ok "[2, 3]") "def" ≠ PyValue.dict [] := by
  refine ⟨rfl, fun h => ?_⟩
  have h2 : PyValue.list [PyValue.int 2, PyValue.int 3] = PyValue.dict [] := h
  exact PyValue.noConfusion h2

/-- C1 amended: `call_llm` returns the empty-record sentinel on a service
invocation error and on response text that is not valid JSON after
fence-stripping, and never propagates an exception; but response text that
is valid JSON and not an object is returned as parsed, not replaced by the
sentinel. -/
theorem c1_fail_soft (svc : String → Except Unit String) (d : String) :
    ((∃ e, svc d = Except.error e) → call_llm svc d = PyValue.dict [])
    ∧ (∀ s, svc d = Except.ok s → jsonParse (stripFences s) = none →
        call_llm svc d = PyValue.dict [])
    ∧ (∀ s v, svc d = Except.ok s → jsonParse (stripFences s) = some v →
        call_llm svc d = v) := by
  refine ⟨?_, ?_, ?_⟩
  · rintro ⟨e, he⟩
    simp [call_llm, he]
  · intro s hs hp
    simp [call_llm, hs, hp]
  · intro s v hs hp
    simp [call_llm, hs, hp]

/-- C1 witness: the error path and the non-JSON path produce the sentinel;
the parsed-value path returns the parsed value. -/
theorem c1_fail_soft_witness :
    call_llm (fun _ => Except.error ()) "d" = PyValue.dict []
    ∧ call_llm (fun _ => Except.ok "not json") "d" = PyValue.dict []
    ∧ call_llm (fun _ => Except.ok "[1]") "d" = PyValue.list [PyValue.int 1] :=
  ⟨(c1_fail_soft (fun _ => Except.error ()) "d").1 ⟨(), rfl⟩,
   (c1_fail_soft (fun _ => Except.ok "not json") "d").2.1 "not json" rfl (by rfl),
   (c1_fail_soft (fun _ => Except.ok "[1]") "d").2.2 "[1]" (PyValue.list [PyValue.int 1]) rfl (by rfl)⟩

/-- C7: an input row whose extraction yields the empty sentinel produces
zero output rows, and the run over the remaining rows is unchanged — the
pipeline continues instead of aborting. -/
theorem c7_sentinel_skip (svc : String → Except Unit String) (r : InputRow)
    (rest : List InputRow) (h : call_llm svc r.definition = PyValue.dict []) :
    processRow svc r = .ok []
    ∧ processRows svc (r :: rest) = processRows svc rest := by
  have h1 : processRow svc r = .ok [] := processRow_sentinel (by rw [h]; rfl)
  refine ⟨h1, ?_⟩
  have hcons : processRows svc (r :: rest) =
      match processRow svc r with
      | Except.error e => Except.error e
      | Except.ok o =>
        match processRows svc rest with
        | Except.error e => Except.error e
        | Except.ok os => Except.ok (o ++ os) := rfl
  rw [hcons, h1]
  cases hrest : processRows svc rest <;> simp

/-- C7 witness: a failing service call yields the sentinel, the row is
skipped, and the rest of the run proceeds. -/
theorem c7_sentinel_skip_witness :
    processRows (fun _ => Except.error ()) [⟨"a", "b"⟩, ⟨"c", "d"⟩]
      = processRows (fun _ => Except.error ()) [⟨"c", "d"⟩] :=
  (c7_sentinel_skip (fun _ => Except.error ()) ⟨"a", "b"⟩ [⟨"c", "d"⟩] rfl).2

/-- C8: `expand_service_ranges` is idempotent — its output, fed back in as
string tokens, is a fixed point: every emitted token is either an
unmatched original (still unmatched) or a pure decimal numeral, which the
range regex cannot match for lack of a dash. -/
theorem c8_idempotent (tokens : List PyValue) (out : List String)
    (h : expand_service_ranges (PyValue.list tokens) = .ok out) :
    expand_service_ranges (PyValue.list (out.map PyValue.str)) = .ok out := by
  have hout : out = tokens.flatMap (fun c => expandToken (pyStr c)) := by
    have h0 : expand_service_ranges (PyValue.list tokens)
        = .ok (tokens.flatMap (fun c => expandToken (pyStr c))) := rfl
    rw [h0] at h
    exact (Except.ok.inj h).symm
  subst hout
  show Except.ok (((tokens.flatMap fun c => expandToken (pyStr c)).map PyValue.str).flatMap
    (fun code => expandToken (pyStr code))) = _
  rw [List.flatMap_map]
  have hfix2 : ∀ s ∈ tokens.flatMap (fun c => expandToken (pyStr c)),
      expandToken s = [s] := by
    intro s hs
    rcases List.mem_flatMap.mp hs with ⟨c, hc, hsc⟩
    exact expandToken_descendant hsc
  congr 1
  simp only [pyStr]
  exact singleton_flatMap_id hfix2

/-- C8 witness: expanded output is a fixed point on a concrete input. -/
theorem c8_idempotent_witness :
    expand_service_ranges (PyValue.list (["1", "2", "3", "ab"].map PyValue.str))
      = .ok ["1", "2", "3", "ab"] :=
  c8_idempotent [PyValue.str "1-3", PyValue.str "ab"] ["1", "2", "3", "ab"] (by rfl)

/-- C2 counterexample: a completed run with zero accumulated output rows
(the single row's extraction parses to the empty object and is skipped)
finalizes to a table with NO columns, not the declared output columns:
`pandas.DataFrame([])` has an empty column index. -/
theorem c2_counterexample :
    processRows (fun _ => Except.ok "\x7b\x7d") [⟨"cat", "def"⟩] = .ok []
    ∧ dfColumns [] ≠ outputColumns :=
  ⟨by rfl, by decide⟩

/-- C2 amended: the finalized table has exactly the declared output
columns whenever at least one output row was accumulated; with zero
accumulated rows the table has no columns at all (no headers). -/
theorem c2_columns (svc : String → Except Unit String) (rows : List InputRow)
    (out : List OutputRow) (h : processRows svc rows = .ok out) :
    dfColumns out = if out.isEmpty then [] else outputColumns :=
  dfColumns_const (processRows_keys h)

/-- C2 witness: one accumulated row gives exactly the declared columns. -/
theorem c2_columns_witness :
    dfColumns [mkOutputRow "c" "7" "" "" "" "" "" "" ""] = outputColumns :=
  (c2_columns (fun _ => Except.ok "\x7b\"serviceCodes\": [\"7\"]\x7d") [⟨"c", "d"⟩]
    [mkOutputRow "c" "7" "" "" "" "" "" "" ""] (by rfl)).trans (by rfl)

/-- The completion-service response text of the C5 scenario. -/
def c5ResponseText : String :=
  "\x7b\"serviceCodes\":[\"100-102\"],\"diagnosisCodes\":[\"X1\",\"X2\"],\"revenueCodes\":[],\"modifier\":\"M1\",\"pos\":[\"11\"],\"typeOfBill\":\"131\",\"gender\":\"F\",\"minAge\":\"18\",\"maxAge\":\"65\"\x7d"

/-- C5: one input row whose extraction resolves to the given record fans
out to exactly 3 output rows with ServiceCodes "100", "101", "102", each
carrying DiagnosisCode "X1,X2", RevenueCode "", POS "11", Age "18-65",
Modifier "M1", TypeOfBill "131", Gender "F", Minutes 1, Billed_Amnt 100. -/
theorem c5_end_to_end :
    processRows (fun _ => Except.ok c5ResponseText) [⟨"Cat", "some definition"⟩] =
      .ok
        [[("ServiceCategory", Cell.s "Cat"), ("ServiceCode", Cell.s "100"),
          ("RevenueCode", Cell.s ""), ("Gender", Cell.s "F"), ("Age", Cell.s "18-65"),
          ("DiagnosisCode", Cell.s "X1,X2"), ("POS", Cell.s "11"),
          ("TypeOfBill", Cell.s "131"), ("Modifier", Cell.s "M1"),
          ("Minutes", Cell.n 1), ("Billed_Amnt", Cell.n 100)],
         [("ServiceCategory", Cell.s "Cat"), ("ServiceCode", Cell.s "101"),
          ("RevenueCode", Cell.s ""), ("Gender", Cell.s "F"), ("Age", Cell.s "18-65"),
          ("DiagnosisCode", Cell.s "X1,X2"), ("POS", Cell.s "11"),
          ("TypeOfBill", Cell.s "131"), ("Modifier", Cell.s "M1"),
          ("Minutes", Cell.n 1), ("Billed_Amnt", Cell.n 100)],
         [("ServiceCategory", Cell.s "Cat"), ("ServiceCode", Cell.s "102"),
          ("RevenueCode", Cell.s ""), ("Gender", Cell.s "F"), ("Age", Cell.s "18-65"),
          ("DiagnosisCode", Cell.s "X1,X2"), ("POS", Cell.s "11"),
          ("TypeOfBill", Cell.s "131"), ("Modifier", Cell.s "M1"),
          ("Minutes", Cell.n 1), ("Billed_Amnt", Cell.n 100)]] := by
  rfl

/-- C6: in a completed run whose extractions all yield records (objects),
the total number of accumulated output rows is the sum, over the input
rows whose extraction did not yield the empty sentinel, of that row's
post-expansion service-code count; sentinel rows contribute zero. -/
theorem c6_row_count (svc : String → Except Unit String) (rows : List InputRow)
    (out : List OutputRow)
    (hobj : ∀ r ∈ rows, ∃ fs, call_llm svc r.definition = PyValue.dict fs)
    (hok : processRows svc rows = .ok out) :
    out.length = (rows.map (fun r =>
      if isSentinel (call_llm svc r.definition) then 0
      else postExpansionCount (call_llm svc r.definition))).sum := by
  induction rows generalizing out with
  | nil =>
    injection hok with h'
    subst h'
    rfl
  | cons r rest ih =>
    unfold processRows at hok
    split at hok
    · exact Except.noConfusion hok
    · rename_i o ho
      split at hok
      · exact Except.noConfusion hok
      · rename_i os hos
        injection hok with h'
        subst h'
        obtain ⟨fs, hfs⟩ := hobj r (by simp)
        have hlen := processRow_length hfs ho
        rw [List.map_cons, List.sum_cons, List.length_append, hfs, isSentinel_dict,
          ih os (fun x hx => hobj x (List.mem_cons_of_mem r hx)) hos, hlen]

/-- C6 witness: a two-row run (one sentinel row, one row fanning out to 3
codes) where the accumulated length equals the sentinel-filtered sum. -/
theorem c6_row_count_witness :
    ([mkOutputRow "b" "1" "" "" "" "" "" "" "", mkOutputRow "b" "2" "" "" "" "" "" "" "",
      mkOutputRow "b" "9" "" "" "" "" "" "" ""] : List OutputRow).length
      = (([⟨"a", "\x7b\x7d"⟩, ⟨"b", "\x7b\"serviceCodes\": [\"1-2\", \"9\"]\x7d"⟩] : List InputRow).map
          (fun r => if isSentinel (call_llm (fun d => Except.ok d) r.definition) then 0
            else postExpansionCount (call_llm (fun d => Except.ok d) r.definition))).sum :=
  c6_row_count (fun d => Except.ok d)
    [⟨"a", "\x7b\x7d"⟩, ⟨"b", "\x7b\"serviceCodes\": [\"1-2\", \"9\"]\x7d"⟩]
    [mkOutputRow "b" "1" "" "" "" "" "" "" "", mkOutputRow "b" "2" "" "" "" "" "" "" "",
     mkOutputRow "b" "9" "" "" "" "" "" "" ""]
    (by
      intro r hr
      simp only [List.mem_cons, List.not_mem_nil, or_false] at hr
      rcases hr with rfl | rfl
      · exact ⟨[], rfl⟩
      · exact ⟨[("serviceCodes", PyValue.list [PyValue.str "1-2", PyValue.str "9"])], rfl⟩)
    (by rfl)
